import Mathlib

/-!
Shallow embedding of `src/exercice.py`, a minimal PCM WAVE codec:
sample quantization (float ↔ signed 16-bit little-endian), channel
interleaving, header construction, and file writing/reading.

Python floats are modelled as rationals (`ℚ`); Python `bytes` as
`List ℕ` with entries below 256; fallible operations (`struct.pack`
range errors, `struct.unpack` length errors, division by zero) return
`Option`.
-/

namespace Exercice

/-- SAMPLING_FREQ = 44100. -/
def SAMPLING_FREQ : ℕ := 44100

/-- SAMPLE_BITS = 16. -/
def SAMPLE_BITS : ℕ := 16

/-- SAMPLE_WIDTH = SAMPLE_BITS // 8. -/
def SAMPLE_WIDTH : ℕ := SAMPLE_BITS / 8

/-- MAX_SAMPLE_VALUE = 2 ** (SAMPLE_BITS - 1) - 1 = 32767. -/
def MAX_SAMPLE_VALUE : ℕ := 2 ^ (SAMPLE_BITS - 1) - 1

/-- struct.calcsize("4sI 4s") = 12 (packed, little-endian "<"). -/
def RIFF_HEADER_SIZE : ℕ := 4 + 4 + 4

/-- struct.calcsize("4sI HHIIHH") = 24. -/
def FORMAT_HEADER_SIZE : ℕ := 4 + 4 + 2 + 2 + 4 + 4 + 2 + 2

/-- struct.calcsize("4sI") = 8. -/
def DATA_HEADER_SIZE : ℕ := 4 + 4

/-- struct.calcsize(WAVE_FILE_HEADERS_STRUCT) = 44. -/
def WAVE_FILE_HEADERS_SIZE : ℕ :=
  RIFF_HEADER_SIZE + FORMAT_HEADER_SIZE + DATA_HEADER_SIZE

/-- The `WaveFileHeaders` namedtuple: the 13 header fields.
Tag fields hold 4 raw bytes; numeric fields are unbounded here, as in
Python (range checks happen at `struct.pack` time). -/
structure WaveFileHeaders where
  riff_id : List ℕ
  file_size : ℕ
  wave : List ℕ
  fmt_id : List ℕ
  fmt_size : ℕ
  wav_type : ℕ
  num_channels : ℕ
  sampling_freq : ℕ
  bytes_per_second : ℕ
  bytes_per_sample : ℕ
  sample_bits : ℕ
  data_id : List ℕ
  data_size : ℕ
deriving Repr, DecidableEq

/-- Python `int(x)` on a rational: truncation toward zero. -/
def truncInt (q : ℚ) : ℤ := if 0 ≤ q then ⌊q⌋ else ⌈q⌉

/-- All-or-nothing effectful map over a list (how `struct.pack` treats
its arguments: one bad value fails the whole call). -/
def mapOpt (f : α → Option β) : List α → Option (List β)
  | [] => some []
  | a :: as =>
    match f a, mapOpt f as with
    | some b, some bs => some (b :: bs)
    | _, _ => none

/-- Packing one value with struct format "h": little-endian signed
16-bit two's complement; raises (returns `none`) outside
[-32768, 32767]. -/
def pack_i16 (t : ℤ) : Option (List ℕ) :=
  if -32768 ≤ t ∧ t ≤ 32767 then
    some [(t % 65536).toNat % 256, (t % 65536).toNat / 256]
  else none

/-- Unpacking one value with struct format "h" from two bytes. -/
def unpack_i16 (b0 b1 : ℕ) : ℤ :=
  let m := b0 + 256 * b1
  if m < 32768 then (m : ℤ) else (m : ℤ) - 65536

/-- Unpacking a byte string with struct format "<Nh": consecutive
little-endian signed 16-bit values. -/
def unpack_bytes : List ℕ → List ℤ
  | b0 :: b1 :: rest => unpack_i16 b0 b1 :: unpack_bytes rest
  | _ => []

/-- Packing one value with struct format "I": little-endian unsigned
32-bit; raises (returns `none`) outside [0, 2^32). -/
def pack_u32 (n : ℕ) : Option (List ℕ) :=
  if n < 4294967296 then
    some [n % 256, n / 256 % 256, n / 65536 % 256, n / 16777216 % 256]
  else none

/-- Packing one value with struct format "H": little-endian unsigned
16-bit; raises (returns `none`) outside [0, 2^16). -/
def pack_u16 (n : ℕ) : Option (List ℕ) :=
  if n < 65536 then some [n % 256, n / 256] else none

/-- Little-endian interpretation of a byte string as an unsigned
integer. -/
def le_nat (bs : List ℕ) : ℕ := bs.foldr (fun b acc => b + 256 * acc) 0

/-- merge_channels: `for values in zip(*channels): final_list += values`.
`pyZip` models Python `zip(*channels)`: row `i` exists iff every channel
has an element at index `i` (zip-to-shortest); `zip()` of no iterables
is empty. -/
def pyZip (cs : List (List ℚ)) : List (List ℚ) :=
  match cs with
  | [] => []
  | c0 :: _ =>
    (List.range c0.length).filterMap fun i => mapOpt (fun c => c.get? i) cs

/-- merge_channels(channels): concatenates the rows of zip(*channels). -/
def merge_channels (channels : List (List ℚ)) : List ℚ :=
  (pyZip channels).flatten

/-- separate_channels(samples, num_channels): builds `num_channels`
lists, list `j` holding `samples[num_channels * i + j]` for
`i < len(samples) // num_channels`. Python raises ZeroDivisionError
when `num_channels == 0`, modelled by `none`. -/
def separate_channels (samples : List ℚ) (num_channels : ℕ) :
    Option (List (List ℚ)) :=
  if num_channels = 0 then none
  else some ((List.range num_channels).map fun j =>
    (List.range (samples.length / num_channels)).map fun i =>
      samples.getD (num_channels * i + j) 0)

/-- create_headers(num_samples): pure construction of the header
namedtuple; no validation anywhere. -/
def create_headers (num_samples : ℕ) : WaveFileHeaders :=
  { riff_id := [82, 73, 70, 70]
    file_size := WAVE_FILE_HEADERS_SIZE - 8 + num_samples * SAMPLE_WIDTH
    wave := [87, 65, 86, 69]
    fmt_id := [102, 109, 116, 32]
    fmt_size := FORMAT_HEADER_SIZE - 8
    wav_type := 1
    num_channels := 2
    sampling_freq := SAMPLING_FREQ
    bytes_per_second := SAMPLING_FREQ * SAMPLE_WIDTH
    bytes_per_sample := SAMPLE_WIDTH
    sample_bits := SAMPLE_BITS
    data_id := [100, 97, 116, 97]
    data_size := num_samples * SAMPLE_WIDTH }

/-- convert_to_bytes(samples): `int(sample * MAX_SAMPLE_VALUE)` for each
sample, then `struct.pack("<Nh", *int_samples)`. -/
def convert_to_bytes (samples : List ℚ) : Option (List ℕ) :=
  (mapOpt pack_i16
    (samples.map fun sample => truncInt (sample * MAX_SAMPLE_VALUE))).map
    List.flatten

/-- convert_to_samples(sample_bytes): `float(value) / MAX_SAMPLE_VALUE`
for each already-unpacked 16-bit integer (the code passes the unpacked
int list despite the parameter name). -/
def convert_to_samples (values : List ℤ) : List ℚ :=
  values.map fun value => (Int.cast value : ℚ) / (MAX_SAMPLE_VALUE : ℕ)

/-- Serialization of header fields in WAVE_FILE_HEADERS_STRUCT order,
`struct.pack(WAVE_FILE_HEADERS_STRUCT, *headers)`. -/
def pack_headers (h : WaveFileHeaders) : Option (List ℕ) :=
  (pack_u32 h.file_size).bind fun fs =>
  (pack_u32 h.fmt_size).bind fun fmts =>
  (pack_u16 h.wav_type).bind fun wt =>
  (pack_u16 h.num_channels).bind fun nc =>
  (pack_u32 h.sampling_freq).bind fun sf =>
  (pack_u32 h.bytes_per_second).bind fun bs =>
  (pack_u16 h.bytes_per_sample).bind fun bp =>
  (pack_u16 h.sample_bits).bind fun sb =>
  (pack_u32 h.data_size).bind fun ds =>
  some (h.riff_id ++ fs ++ h.wave ++ h.fmt_id ++ fmts ++ wt ++ nc ++ sf ++
    bs ++ bp ++ sb ++ h.data_id ++ ds)

/-- write_wave_file(filename, samples): builds headers from
`len(samples)`, packs them, converts the samples, and writes
header bytes followed by data bytes. The result models the
`(headers, file bytes)`; `none` models a raised struct.error. -/
def write_wave_file (samples : List ℚ) : Option (WaveFileHeaders × List ℕ) :=
  let headers := create_headers samples.length
  (pack_headers headers).bind fun headers_bytes =>
  (convert_to_bytes samples).map fun data_bytes =>
  (headers, headers_bytes ++ data_bytes)

/-- Parsing 44 header bytes with
`struct.unpack(WAVE_FILE_HEADERS_STRUCT, ...)`: fields at their fixed
offsets, little-endian. -/
def parse_headers (hd : List ℕ) : WaveFileHeaders :=
  { riff_id := ((hd.drop 0).take 4)
    file_size := le_nat ((hd.drop 4).take 4)
    wave := ((hd.drop 8).take 4)
    fmt_id := ((hd.drop 12).take 4)
    fmt_size := le_nat ((hd.drop 16).take 4)
    wav_type := le_nat ((hd.drop 20).take 2)
    num_channels := le_nat ((hd.drop 22).take 2)
    sampling_freq := le_nat ((hd.drop 24).take 4)
    bytes_per_second := le_nat ((hd.drop 28).take 4)
    bytes_per_sample := le_nat ((hd.drop 32).take 2)
    sample_bits := le_nat ((hd.drop 34).take 2)
    data_id := ((hd.drop 36).take 4)
    data_size := le_nat ((hd.drop 40).take 4) }

/-- read_wave_file(filename) on a byte stream: reads 44 header bytes
(struct.unpack raises, i.e. `none`, when fewer are available), computes
`sample_count = data_size // 2`, reads `sample_count * 2` data bytes
(unpack raises when fewer are available), and decodes them. -/
def read_wave_file (stream : List ℕ) : Option (WaveFileHeaders × List ℚ) :=
  if stream.length < WAVE_FILE_HEADERS_SIZE then none
  else
    let header_data := parse_headers (stream.take WAVE_FILE_HEADERS_SIZE)
    let sample_count := header_data.data_size / 2
    let raw_bytes := (stream.drop WAVE_FILE_HEADERS_SIZE).take (sample_count * 2)
    if raw_bytes.length < sample_count * 2 then none
    else some (header_data, convert_to_samples (unpack_bytes raw_bytes))

/-- A 46-byte stream: a 44-byte header declaring `data_size = 3`
(bytes 40..43 are little-endian 3) followed by only 2 data bytes. -/
def oddSizeStream : List ℕ := List.replicate 40 0 ++ [3, 0, 0, 0] ++ [7, 9]

/-- A 44-byte stream: a header declaring `data_size = 4` followed by no
data bytes at all. -/
def shortDataStream : List ℕ := List.replicate 40 0 ++ [4, 0, 0, 0]

/-
Helper lemmas shared by the claim theorems.
-/

theorem max_sample_cast : ((MAX_SAMPLE_VALUE : ℕ) : ℚ) = 32767 := by
  norm_num [MAX_SAMPLE_VALUE, SAMPLE_BITS]

theorem truncInt_sub_le (q : ℚ) : |(truncInt q : ℚ) - q| ≤ 1 := by
  unfold truncInt
  split
  · have h1 := Int.floor_le q
    have h2 := Int.lt_floor_add_one q
    rw [abs_le]
    constructor <;> push_cast at h2 ⊢ <;> linarith
  · have h1 := Int.le_ceil q
    have h2 := Int.ceil_lt_add_one q
    rw [abs_le]
    constructor <;> push_cast at h2 ⊢ <;> linarith

theorem truncInt_range (q : ℚ) (h1 : -32767 ≤ q) (h2 : q ≤ 32767) :
    -32767 ≤ truncInt q ∧ truncInt q ≤ 32767 := by
  unfold truncInt
  split
  · rename_i h0
    constructor
    · have : (0 : ℤ) ≤ ⌊q⌋ := Int.floor_nonneg.mpr h0
      omega
    · have : (⌊q⌋ : ℚ) ≤ 32767 := le_trans (Int.floor_le q) h2
      exact_mod_cast this
  · rename_i h0
    push_neg at h0
    constructor
    · have : (-32767 : ℚ) ≤ ⌈q⌉ := le_trans h1 (Int.le_ceil q)
      exact_mod_cast this
    · have : (⌈q⌉ : ℚ) ≤ 32767 := by
        have hc := Int.ceil_lt_add_one q
        have : (⌈q⌉ : ℚ) < q + 1 := hc
        linarith
      exact_mod_cast this

theorem mapOpt_isSome_iff (f : α → Option β) (l : List α) :
    (mapOpt f l).isSome ↔ ∀ a ∈ l, (f a).isSome := by
  induction l with
  | nil => simp [mapOpt]
  | cons a as ih =>
    cases hfa : f a with
    | none => simp [mapOpt, hfa]
    | some b =>
      cases hma : mapOpt f as with
      | none =>
        rw [hma] at ih
        simp [mapOpt, hfa, hma, ← ih]
      | some bs =>
        rw [hma] at ih
        simp [mapOpt, hfa, hma, ← ih]

theorem pack_i16_isSome (t : ℤ) :
    (pack_i16 t).isSome ↔ (-32768 ≤ t ∧ t ≤ 32767) := by
  unfold pack_i16
  split <;> simp_all

theorem pack_unpack_single (t : ℤ) (h1 : -32768 ≤ t) (h2 : t ≤ 32767) :
    pack_i16 t = some [(t % 65536).toNat % 256, (t % 65536).toNat / 256] ∧
    unpack_i16 ((t % 65536).toNat % 256) ((t % 65536).toNat / 256) = t := by
  constructor
  · rw [pack_i16, if_pos ⟨h1, h2⟩]
  · simp only [unpack_i16]
    split <;> omega

theorem pack_unpack_list (ts : List ℤ)
    (h : ∀ t ∈ ts, -32768 ≤ t ∧ t ≤ 32767) :
    ∃ bss, mapOpt pack_i16 ts = some bss ∧ unpack_bytes bss.flatten = ts := by
  induction ts with
  | nil => exact ⟨[], rfl, rfl⟩
  | cons t ts ih =>
    obtain ⟨h1, h2⟩ := h t (List.mem_cons_self t ts)
    obtain ⟨hp, hu⟩ := pack_unpack_single t h1 h2
    obtain ⟨bss, hm, hub⟩ := ih fun x hx => h x (List.mem_cons_of_mem _ hx)
    refine ⟨[(t % 65536).toNat % 256, (t % 65536).toNat / 256] :: bss, ?_, ?_⟩
    · simp only [mapOpt]
      rw [hp, hm]
    · rw [List.flatten_cons]
      show unpack_i16 _ _ :: unpack_bytes _ = _
      rw [hu]
      show t :: unpack_bytes bss.flatten = t :: ts
      rw [hub]

theorem single_quant (s : ℚ) :
    |(Int.cast (truncInt (s * (MAX_SAMPLE_VALUE : ℕ))) : ℚ) /
      (MAX_SAMPLE_VALUE : ℕ) - s| ≤ 1 / 32767 := by
  rw [max_sample_cast]
  have hb := truncInt_sub_le (s * 32767)
  rw [abs_le] at hb ⊢
  obtain ⟨hb1, hb2⟩ := hb
  constructor <;> linarith

theorem filterMap_eq_map_of_some (f : α → Option β) (g : α → β)
    (l : List α) (h : ∀ a ∈ l, f a = some (g a)) :
    l.filterMap f = l.map g := by
  induction l with
  | nil => rfl
  | cons a as ih =>
    rw [List.filterMap_cons_some (h a (List.mem_cons_self a as)),
      List.map_cons, ih fun x hx => h x (List.mem_cons_of_mem _ hx)]

theorem mapOpt_getElem (cs : List (List ℚ)) (i : ℕ)
    (h : ∀ c ∈ cs, i < c.length) :
    mapOpt (fun c => c.get? i) cs = some (cs.map fun c => c.getD i 0) := by
  induction cs with
  | nil => rfl
  | cons c cs ih =>
    have hc : c.get? i = some (c.getD i 0) := by
      rw [List.get?_eq_getElem?,
        List.getElem?_eq_getElem (h c (List.mem_cons_self _ _)),
        List.getD_eq_getElem _ _ (h c (List.mem_cons_self _ _))]
    simp only [mapOpt]
    rw [hc, ih fun x hx => h x (List.mem_cons_of_mem _ hx), List.map_cons]

theorem pyZip_eq (c0 : List ℚ) (rest : List (List ℚ)) (L : ℕ)
    (hL : ∀ c ∈ c0 :: rest, c.length = L) :
    pyZip (c0 :: rest) =
      (List.range L).map fun i => (c0 :: rest).map fun c => c.getD i 0 := by
  have hc0 : c0.length = L := hL c0 (List.mem_cons_self _ _)
  show (List.range c0.length).filterMap _ = _
  rw [hc0]
  exact filterMap_eq_map_of_some _ _ _ fun i hi =>
    mapOpt_getElem _ _ fun c hc => by
      rw [hL c hc]; exact List.mem_range.mp hi

theorem flatten_length_uniform (rows : List (List ℚ)) (C : ℕ)
    (h : ∀ r ∈ rows, r.length = C) :
    rows.flatten.length = rows.length * C := by
  induction rows with
  | nil => simp
  | cons r rs ih =>
    rw [List.flatten_cons, List.length_append, h r (List.mem_cons_self _ _),
      ih fun x hx => h x (List.mem_cons_of_mem _ hx), List.length_cons]
    ring

theorem flatten_getD_uniform (rows : List (List ℚ)) (C j : ℕ) (hj : j < C) :
    ∀ i, (∀ r ∈ rows, r.length = C) → i < rows.length →
      rows.flatten.getD (C * i + j) 0 = (rows.getD i []).getD j 0 := by
  induction rows with
  | nil =>
    intro i _ hi
    simp at hi
  | cons r rs ih =>
    intro i h hi
    have hrlen : r.length = C := h r (List.mem_cons_self _ _)
    rw [List.flatten_cons]
    cases i with
    | zero =>
      rw [Nat.mul_zero, Nat.zero_add, List.getD_cons_zero,
        List.getD_eq_getElem?_getD,
        List.getElem?_append_left (by omega),
        ← List.getD_eq_getElem?_getD]
    | succ i =>
      have hidx : C * (i + 1) + j = r.length + (C * i + j) := by
        rw [hrlen]; ring
      have hi2 : i < rs.length := by
        rw [List.length_cons] at hi; omega
      rw [hidx, List.getD_cons_succ, List.getD_eq_getElem?_getD,
        List.getElem?_append_right (by omega), Nat.add_sub_cancel_left,
        ← List.getD_eq_getElem?_getD]
      exact ih i (fun x hx => h x (List.mem_cons_of_mem _ hx)) hi2

/-
Claim theorems.
-/

/-- C1: for every `sample_count ≥ 0`, the header built from it has
`data_size = 2 * sample_count` and
`file_size = 44 - 8 + 2 * sample_count`. -/
theorem create_headers_sizes (sample_count : ℕ) :
    (create_headers sample_count).data_size = 2 * sample_count ∧
    (create_headers sample_count).file_size = 44 - 8 + 2 * sample_count := by
  refine ⟨?_, ?_⟩ <;>
    simp [create_headers, WAVE_FILE_HEADERS_SIZE, RIFF_HEADER_SIZE,
      FORMAT_HEADER_SIZE, DATA_HEADER_SIZE, SAMPLE_WIDTH, SAMPLE_BITS] <;>
    omega

/-- C9: the `bytes_per_second` field of every built header equals
`sampling_freq * bytes_per_sample = 44100 * 2 = 88200`, with no
multiplication by the channel count. -/
theorem bytes_per_second_no_channel_factor (sample_count : ℕ) :
    (create_headers sample_count).bytes_per_second = 88200 ∧
    (create_headers sample_count).bytes_per_second =
      (create_headers sample_count).sampling_freq *
        (create_headers sample_count).bytes_per_sample := by
  exact ⟨rfl, rfl⟩

/-- C4 counterexample: the writer has no channel-count parameter; the
header it writes for the empty sample list has `num_channels = 2`, so
it cannot equal a caller-supplied channel count of 1. -/
theorem write_channel_count_counterexample :
    ((write_wave_file []).map fun p => p.1.num_channels) ≠ some 1 := by
  decide

/-- C4 amended: `write_wave_file` takes no channel-count argument; the
header it builds (via `create_headers` on the sample count) always has
`num_channels = 2`, for every samples sequence. -/
theorem write_num_channels_always_two (samples : List ℚ) :
    (create_headers samples.length).num_channels = 2 := rfl

/-- C5 counterexample: `create_headers` performs no validation: at
`sample_count = 2^31` it does not fail but returns a header whose
`data_size` (and `file_size`) no longer fit in 32 bits. -/
theorem create_headers_no_validation :
    (create_headers (2 ^ 31)).data_size = 2 ^ 32 ∧
    (create_headers (2 ^ 31)).file_size = 2 ^ 32 + 36 := by
  exact ⟨rfl, rfl⟩

/-- C5 amended: header construction never fails (and has no
channel-count parameter); an oversized sample count only fails later,
in the writer, when `struct.pack` rejects the 32-bit `file_size`
field. -/
theorem write_overflow_fails (samples : List ℚ)
    (h : 2 ^ 31 ≤ samples.length) :
    write_wave_file samples = none := by
  have hfs : ¬ (create_headers samples.length).file_size < 4294967296 := by
    simp only [create_headers, WAVE_FILE_HEADERS_SIZE, RIFF_HEADER_SIZE,
      FORMAT_HEADER_SIZE, DATA_HEADER_SIZE, SAMPLE_WIDTH, SAMPLE_BITS]
    norm_num
    omega
  simp only [write_wave_file, pack_headers, pack_u32]
  rw [if_neg hfs]
  rfl

/-- C5 witness: a sample list of length `2^31` triggers the writer
failure. -/
theorem write_overflow_fails_witness :
    2 ^ 31 ≤ (List.replicate (2 ^ 31) (0 : ℚ)).length ∧
    write_wave_file (List.replicate (2 ^ 31) (0 : ℚ)) = none :=
  ⟨by rw [List.length_replicate],
   write_overflow_fails _ (by rw [List.length_replicate])⟩

/-- C2: for every sequence of floats with each element in [-1, 1],
encoding succeeds and decoding the packed 16-bit integers yields a
sequence of the same length, elementwise within 1/32767 of the
input. -/
theorem quantization_roundtrip (samples : List ℚ)
    (h : ∀ s ∈ samples, -1 ≤ s ∧ s ≤ 1) :
    ∃ bs, convert_to_bytes samples = some bs ∧
      (convert_to_samples (unpack_bytes bs)).length = samples.length ∧
      ∀ i, i < samples.length →
        |(convert_to_samples (unpack_bytes bs)).getD i 0 -
          samples.getD i 0| ≤ 1 / 32767 := by
  have hbound : ∀ t ∈ samples.map
      (fun sample => truncInt (sample * (MAX_SAMPLE_VALUE : ℕ))),
      -32768 ≤ t ∧ t ≤ 32767 := by
    intro t ht
    obtain ⟨s, hs, rfl⟩ := List.mem_map.mp ht
    obtain ⟨hs1, hs2⟩ := h s hs
    have hlo : -32767 ≤ s * ((MAX_SAMPLE_VALUE : ℕ) : ℚ) := by
      rw [max_sample_cast]; linarith
    have hhi : s * ((MAX_SAMPLE_VALUE : ℕ) : ℚ) ≤ 32767 := by
      rw [max_sample_cast]; linarith
    obtain ⟨hr1, hr2⟩ := truncInt_range _ hlo hhi
    exact ⟨by omega, hr2⟩
  obtain ⟨bss, hm, hub⟩ := pack_unpack_list _ hbound
  refine ⟨bss.flatten, ?_, ?_, ?_⟩
  · rw [convert_to_bytes, hm]
    rfl
  · rw [hub, convert_to_samples, List.length_map, List.length_map]
  · intro i hi
    rw [hub, convert_to_samples, List.map_map]
    have hlen : i < (samples.map
        ((fun value => (Int.cast value : ℚ) / (MAX_SAMPLE_VALUE : ℕ)) ∘
          fun sample => truncInt (sample * (MAX_SAMPLE_VALUE : ℕ)))).length := by
      rw [List.length_map]; exact hi
    rw [List.getD_eq_getElem _ _ hlen, List.getElem_map,
      List.getD_eq_getElem _ _ hi]
    exact single_quant _

/-- C2 witness: the singleton input [1/2] is in range and satisfies the
round-trip bound. -/
theorem quantization_roundtrip_witness :
    (∀ s ∈ ([1 / 2] : List ℚ), -1 ≤ s ∧ s ≤ 1) ∧
    (∃ bs, convert_to_bytes [1 / 2] = some bs ∧
      (convert_to_samples (unpack_bytes bs)).length =
        ([1 / 2] : List ℚ).length ∧
      ∀ i, i < ([1 / 2] : List ℚ).length →
        |(convert_to_samples (unpack_bytes bs)).getD i 0 -
          ([1 / 2] : List ℚ).getD i 0| ≤ 1 / 32767) :=
  ⟨by norm_num, quantization_roundtrip _ (by norm_num)⟩

/-- C3: encoding [0.5, -0.5] gives exactly the bytes
0xFF 0x3F 0x01 0xC0: scaling by 32767 and truncating toward zero gives
16383 and -16383, packed little-endian as signed 16-bit. -/
theorem encode_half_bytes :
    convert_to_bytes [1 / 2, -1 / 2] = some [255, 63, 1, 192] := by
  have hmap : ([1 / 2, -1 / 2] : List ℚ).map
      (fun sample => truncInt (sample * (MAX_SAMPLE_VALUE : ℕ))) =
      [16383, -16383] := by
    rw [List.map_cons, List.map_cons, List.map_nil, max_sample_cast]
    have t1 : truncInt ((1 / 2 : ℚ) * 32767) = 16383 := by
      rw [truncInt, if_pos (by norm_num), Int.floor_eq_iff]
      constructor <;> norm_num
    have t2 : truncInt ((-1 / 2 : ℚ) * 32767) = -16383 := by
      rw [truncInt, if_neg (by norm_num), Int.ceil_eq_iff]
      constructor <;> norm_num
    rw [t1, t2]
  rw [convert_to_bytes, hmap]
  rfl

/-- C7 counterexample: the out-of-range input 2.0 does not return
bytes: `int(2.0 * 32767) = 65534` exceeds the signed 16-bit packing
range, so `struct.pack` raises (modelled as `none`). -/
theorem encode_out_of_range_errors : convert_to_bytes [2] = none := by
  have hmap : ([2] : List ℚ).map
      (fun sample => truncInt (sample * (MAX_SAMPLE_VALUE : ℕ))) =
      [65534] := by
    rw [List.map_cons, List.map_nil, max_sample_cast]
    have t : truncInt ((2 : ℚ) * 32767) = 65534 := by
      rw [truncInt, if_pos (by norm_num), Int.floor_eq_iff]
      constructor <;> norm_num
    rw [t]
  rw [convert_to_bytes, hmap]
  rfl

/-- C7 amended: encoding performs no clamping, but it does not always
return bytes on out-of-range input: it succeeds exactly when every
scaled, truncated value fits the signed 16-bit packing range
[-32768, 32767] (raising struct.error otherwise), and a slightly
out-of-range value such as 65535/65534 > 1 is still packed unclamped. -/
theorem encode_no_clamping :
    (∀ samples : List ℚ, (convert_to_bytes samples).isSome ↔
      ∀ s ∈ samples, -32768 ≤ truncInt (s * (MAX_SAMPLE_VALUE : ℕ)) ∧
        truncInt (s * (MAX_SAMPLE_VALUE : ℕ)) ≤ 32767) ∧
    convert_to_bytes [65535 / 65534] = some [255, 127] := by
  constructor
  · intro samples
    rw [convert_to_bytes, Option.isSome_map', mapOpt_isSome_iff]
    constructor
    · intro h s hs
      exact (pack_i16_isSome _).mp (h _ (List.mem_map_of_mem _ hs))
    · intro h t ht
      obtain ⟨s, hs, rfl⟩ := List.mem_map.mp ht
      exact (pack_i16_isSome _).mpr (h s hs)
  · have hmap : ([65535 / 65534] : List ℚ).map
        (fun sample => truncInt (sample * (MAX_SAMPLE_VALUE : ℕ))) =
        [32767] := by
      rw [List.map_cons, List.map_nil, max_sample_cast]
      have t : truncInt ((65535 / 65534 : ℚ) * 32767) = 32767 := by
        rw [truncInt, if_pos (by norm_num), Int.floor_eq_iff]
        constructor <;> norm_num
      rw [t]
    rw [convert_to_bytes, hmap]
    rfl

/-- C6 counterexample: a stream whose header declares `data_size = 3`
but which carries only 2 data bytes is accepted by the reader (because
`sample_count = 3 // 2 = 1` only needs 2 bytes), so "fewer than
data_size bytes follow" does not always raise. -/
theorem read_odd_data_size_accepts :
    (parse_headers (oddSizeStream.take WAVE_FILE_HEADERS_SIZE)).data_size = 3 ∧
    (oddSizeStream.drop WAVE_FILE_HEADERS_SIZE).length = 2 ∧
    (read_wave_file oddSizeStream).isSome = true := by
  refine ⟨?_, ?_, ?_⟩ <;> decide

/-- C6 amended: the reader fails (struct.error, modelled as `none`) and
returns no partial sample list whenever fewer than
`2 * (data_size // 2)` bytes of sample data follow the 44-byte header;
with an odd `data_size` the trailing odd byte is not required. -/
theorem read_truncated_none (stream : List ℕ)
    (h1 : WAVE_FILE_HEADERS_SIZE ≤ stream.length)
    (h2 : stream.length - WAVE_FILE_HEADERS_SIZE <
      2 * ((parse_headers (stream.take WAVE_FILE_HEADERS_SIZE)).data_size / 2)) :
    read_wave_file stream = none := by
  simp only [read_wave_file]
  rw [if_neg (by omega)]
  rw [if_pos]
  rw [List.length_take, List.length_drop]
  omega

/-- C6 witness: a 44-byte stream declaring `data_size = 4` with no data
bytes at all is rejected. -/
theorem read_truncated_none_witness :
    (WAVE_FILE_HEADERS_SIZE ≤ shortDataStream.length ∧
     shortDataStream.length - WAVE_FILE_HEADERS_SIZE <
       2 * ((parse_headers
         (shortDataStream.take WAVE_FILE_HEADERS_SIZE)).data_size / 2)) ∧
    read_wave_file shortDataStream = none :=
  ⟨⟨by decide, by decide⟩, read_truncated_none _ (by decide) (by decide)⟩

/-- C8 counterexample: for the empty list of channels (vacuously all of
equal length), `len(channels) = 0` and `separate_channels(..., 0)`
raises ZeroDivisionError in Python (modelled as `none`) instead of
returning the empty channel list back. -/
theorem separate_merge_empty_fails :
    separate_channels (merge_channels []) 0 = none ∧
    separate_channels (merge_channels []) 0 ≠ some [] := by
  exact ⟨rfl, by decide⟩

/-- C8 amended: for every nonempty list of channel sequences of equal
length L, merging interleaves them into a sequence of length
`L * len(channels)` and `separate_channels(merge_channels(channels),
len(channels))` returns exactly the original channels. -/
theorem separate_merge_inverse (channels : List (List ℚ)) (L : ℕ)
    (h0 : channels ≠ []) (hL : ∀ c ∈ channels, c.length = L) :
    (merge_channels channels).length = L * channels.length ∧
    separate_channels (merge_channels channels) channels.length =
      some channels := by
  obtain ⟨c0, rest, rfl⟩ : ∃ c0 rest, channels = c0 :: rest := by
    cases channels with
    | nil => exact absurd rfl h0
    | cons a l => exact ⟨a, l, rfl⟩
  have hC0 : ¬((c0 :: rest).length = 0) := by simp
  have hzip := pyZip_eq c0 rest L hL
  have hrowlen : ∀ r ∈ (List.range L).map
      (fun i => (c0 :: rest).map fun c => c.getD i 0),
      r.length = (c0 :: rest).length := by
    intro r hr
    obtain ⟨i, _, rfl⟩ := List.mem_map.mp hr
    exact List.length_map _ _
  have hmerge_len :
      (merge_channels (c0 :: rest)).length = L * (c0 :: rest).length := by
    rw [merge_channels, hzip, flatten_length_uniform _ _ hrowlen,
      List.length_map, List.length_range]
  refine ⟨hmerge_len, ?_⟩
  rw [separate_channels, if_neg hC0]
  have hdiv :
      (merge_channels (c0 :: rest)).length / (c0 :: rest).length = L := by
    rw [hmerge_len]
    exact Nat.mul_div_cancel _ (by simp)
  rw [hdiv]
  congr 1
  apply List.ext_getElem
  · rw [List.length_map, List.length_range]
  · intro j hj1 hj2
    rw [List.getElem_map, List.getElem_range]
    have hj : j < (c0 :: rest).length := by
      rw [List.length_map, List.length_range] at hj1
      exact hj1
    have hcj : (c0 :: rest)[j].length = L := hL _ (List.getElem_mem hj)
    apply List.ext_getElem
    · rw [List.length_map, List.length_range, hcj]
    · intro i hi1 hi2
      have hiL : i < L := by
        rw [List.length_map, List.length_range] at hi1
        exact hi1
      rw [List.getElem_map, List.getElem_range, merge_channels, hzip,
        flatten_getD_uniform _ _ _ hj i hrowlen
          (by rw [List.length_map, List.length_range]; exact hiL),
        List.getD_eq_getElem _ []
          (by rw [List.length_map, List.length_range]; exact hiL),
        List.getElem_map, List.getElem_range,
        List.getD_eq_getElem _ _ (by rw [List.length_map]; exact hj),
        List.getElem_map,
        List.getD_eq_getElem _ _ (by rw [hcj]; exact hiL)]

/-- C8 witness: two channels [1,2] and [3,4] merge to a length-4
interleaved list and separate back to the original channels. -/
theorem separate_merge_inverse_witness :
    (([[1, 2], [3, 4]] : List (List ℚ)) ≠ [] ∧
      ∀ c ∈ ([[1, 2], [3, 4]] : List (List ℚ)), c.length = 2) ∧
    (merge_channels [[1, 2], [3, 4]]).length = 2 * 2 ∧
    separate_channels (merge_channels [[1, 2], [3, 4]]) 2 =
      some [[1, 2], [3, 4]] := by
  refine ⟨⟨by simp, by simp⟩, ?_⟩
  exact separate_merge_inverse [[1, 2], [3, 4]] 2 (by simp) (by simp)

/-- C10: decoding does not clamp: the two bytes `0x00 0x80`
(little-endian -32768) decode to `-32768/32767`, which is strictly
below -1. -/
theorem decode_below_neg_one :
    convert_to_samples (unpack_bytes [0, 128]) = [(-32768 : ℚ) / 32767] ∧
    (-32768 : ℚ) / 32767 < -1 := by
  constructor
  · have h : unpack_bytes [0, 128] = [-32768] := rfl
    rw [convert_to_samples, h, List.map_cons, List.map_nil, max_sample_cast]
    norm_num
  · norm_num

end Exercice
